import Mathlib

/-!
Verification of the core logic of `badfish.py`, a Redfish boot-order /
job-queue / power-cycle client.

The Python source is embedded shallowly:

* `BootDevice`, `assignIndex`, `computePatch` model the boot-order
  reconciliation loop of `Badfish.change_boot_order` (the two nested
  `for` loops mutating `boot_devices` and the `change` flag).
* `change_boot_order_trace` / `main_flow` model the control flow of
  `change_boot_order`'s PATCH step and `main`'s continuation into job
  creation (with `--pxe` absent and an empty job queue).
* `check_boot` models `Badfish.check_boot` with an interfaces file,
  including its slice `boot_devices[: len(interfaces)]` taken over the
  *dict* `interfaces` (length 1 while checking "foreman", 2 while
  checking "director").
* `get_job_status` models `Badfish.get_job_status` (10 retries, sleep
  after every 200 read, terminal message check).
* `jidSearchAux` / `create_bios_config_job` model
  `Badfish.create_bios_config_job`, including the lazy regular
  expression `JID_.+?,` and the `AttributeError` raised when
  `re.search` returns `None` and `.group()` is called on it.
* `clear_job_queue` models `Badfish.clear_job_queue` (DELETE per id,
  responses ignored, re-query decides the outcome).
* `shutdown_loop` / `reboot_on_path` model the `PowerState == "On"`
  branch of `Badfish.reboot_server`: graceful reset, the polling loop
  with its `count == 10` forced-off escalation, and the final power-On
  action.  Lists supply the successive power-state reads and the
  status codes of successive ForceOff posts.

Python's stable `sorted(..., key=lambda x: x["Index"])` is modelled by
the stable insertion sort `sortByIndex`.
-/

/-- One entry of the controller's boot sequence: `{"Name": ..., "Index": ...}`. -/
structure BootDevice where
  name : String
  index : Nat
  deriving Repr, DecidableEq

/-- Stable insert for `sortByIndex`: the new element goes before the first
element whose index is not smaller, so earlier list elements with equal
index stay first, as with Python's stable `sorted`. -/
def insertByIndex (d : BootDevice) : List BootDevice → List BootDevice
  | [] => [d]
  | e :: rest => if e.index < d.index then e :: insertByIndex d rest else d :: e :: rest

/-- Model of `sorted(devices, key=lambda x: x["Index"])` (stable). -/
def sortByIndex : List BootDevice → List BootDevice
  | [] => []
  | d :: rest => insertByIndex d (sortByIndex rest)

/-- Position of the first occurrence of `nm` in a list of names
(`length` when absent). -/
def posOf (nm : String) : List String → Nat
  | [] => 0
  | s :: rest => if s = nm then 0 else posOf nm rest + 1

/-- Inner loop of `change_boot_order`:
`for device in boot_devices: if interfaces[i] == device["Name"]: if device["Index"] != i: device["Index"] = i; change = True; break`.
Returns the updated device list and whether this pass set `change`. -/
def assignIndex (devs : List BootDevice) (nm : String) (i : Nat) : List BootDevice × Bool :=
  match devs with
  | [] => ([], false)
  | d :: rest =>
    if d.name = nm then
      if d.index ≠ i then (⟨d.name, i⟩ :: rest, true) else (d :: rest, false)
    else
      let r := assignIndex rest nm i
      (d :: r.1, r.2)

/-- Outer loop of `change_boot_order`: `for i in range(len(interfaces))`,
folding `assignIndex` over the desired names with the running `change` flag. -/
def computePatchAux (ifs : List String) (devs : List BootDevice) (i : Nat) (change : Bool) :
    List BootDevice × Bool :=
  match ifs with
  | [] => (devs, change)
  | nm :: rest =>
    let r := assignIndex devs nm i
    computePatchAux rest r.1 (i + 1) (change || r.2)

/-- The reconciliation step of `change_boot_order`: returns the mutated
device list and the `change` flag. -/
def computePatch (ifs : List String) (devs : List BootDevice) : List BootDevice × Bool :=
  computePatchAux ifs devs 0 false

/-- Observable operations of the boot-order-change path of `main`. -/
inductive Op where
  | patchBootOrder (payload : List BootDevice)
  | logPatchPass
  | logPatchFail
  | logNoopWarning
  | createJob
  deriving Repr, DecidableEq

/-- Trace of the process: operations performed and the exit code if the
process terminated (`sys.exit`). -/
structure MainTrace where
  ops : List Op
  exitCode : Option Nat
  deriving Repr, DecidableEq

/-- Model of `change_boot_order` after the devices are fetched: if `change`
was set, PATCH is issued and only logging depends on the status code — the
function returns normally either way; otherwise it warns and calls
`sys.exit()` (exit code 0). -/
def change_boot_order_trace (ifs : List String) (devs : List BootDevice) (patchStatus : Nat) :
    List Op × Option Nat :=
  let r := computePatch ifs devs
  if r.2 then
    if patchStatus = 200 then ([Op.patchBootOrder r.1, Op.logPatchPass], none)
    else ([Op.patchBootOrder r.1, Op.logPatchFail], none)
  else ([Op.logNoopWarning], some 0)

/-- Model of `main`'s boot-order path up to the job-creation call
(`--pxe` absent, job queue empty): if `change_boot_order` returned
normally, `main` goes on to `create_bios_config_job`. -/
def main_flow (ifs : List String) (devs : List BootDevice) (patchStatus : Nat) : MainTrace :=
  let r := change_boot_order_trace ifs devs patchStatus
  match r.2 with
  | some code => ⟨r.1, some code⟩
  | none => ⟨r.1 ++ [Op.createJob], none⟩

/-- Outcome of `check_boot` with an interfaces file. -/
inductive CheckBootResult where
  | matched (profile : String)
  | noMatch (listing : List (Nat × String))
  | indexError
  deriving Repr, DecidableEq

/-- Inner comparison loop of `check_boot`:
`for device in sorted(...): if device["Name"] == interfaces[_host][device["Index"]]: continue else: match = False; break`.
`none` models the `IndexError` Python raises when `device["Index"]` is out
of range of the profile list. -/
def matchLoop (profile : List String) : List BootDevice → Option Bool
  | [] => some true
  | d :: rest =>
    match profile.get? d.index with
    | none => none
    | some nm => if d.name = nm then matchLoop profile rest else some false

/-- Model of `check_boot` with an interfaces file.  The Python code slices
`boot_devices[: len(interfaces)]` where `interfaces` is the dict being
filled, so the "foreman" pass looks at the first 1 device and the
"director" pass at the first 2; on no match it lists all devices sorted by
index as `(index + 1, name)`. -/
def check_boot (foremanProfile directorProfile : List String) (devs : List BootDevice) :
    CheckBootResult :=
  match matchLoop foremanProfile (sortByIndex (devs.take 1)) with
  | none => CheckBootResult.indexError
  | some true => CheckBootResult.matched "foreman"
  | some false =>
    match matchLoop directorProfile (sortByIndex (devs.take 2)) with
    | none => CheckBootResult.indexError
    | some true => CheckBootResult.matched "director"
    | some false =>
      CheckBootResult.noMatch ((sortByIndex devs).map (fun d => (d.index + 1, d.name)))

/-- The terminal job-status message checked by `get_job_status`. -/
def terminalMsg : String := "Task successfully scheduled."

/-- Outcome of `get_job_status`. -/
inductive JobPollOutcome where
  | scheduled
  | fatalNon200
  | fatalExhausted
  | outOfResponses
  deriving Repr, DecidableEq

/-- Reads made, sleeps performed, and outcome of a `get_job_status` run. -/
structure PollStats where
  reads : Nat
  delays : Nat
  outcome : JobPollOutcome
  deriving Repr, DecidableEq

/-- Loop body of `get_job_status`: each iteration issues one GET (a read);
a 200 status logs PASS and sleeps 10 before the message is examined; a
non-200 status exits immediately; a terminal message returns; the loop
runs at most `fuel` times and exhaustion is fatal.  `outOfResponses` is a
model artifact for a response list shorter than the loop needs. -/
def get_job_status_loop (responses : List (Nat × String)) (fuel : Nat) : PollStats :=
  match fuel, responses with
  | 0, _ => ⟨0, 0, JobPollOutcome.fatalExhausted⟩
  | _ + 1, [] => ⟨0, 0, JobPollOutcome.outOfResponses⟩
  | fuel + 1, (status, msg) :: rest =>
    if status = 200 then
      if msg = terminalMsg then ⟨1, 1, JobPollOutcome.scheduled⟩
      else
        let s := get_job_status_loop rest fuel
        ⟨s.reads + 1, s.delays + 1, s.outcome⟩
    else ⟨1, 0, JobPollOutcome.fatalNon200⟩

/-- Model of `get_job_status`: `retries = 10`. -/
def get_job_status (responses : List (Nat × String)) : PollStats :=
  get_job_status_loop responses 10

/-- All-200 response sequence carrying the given messages. -/
def to200 (msgs : List String) : List (Nat × String) :=
  msgs.map (fun m => (200, m))

/-- Boolean prefix test on character lists. -/
def charsStartWith : List Char → List Char → Bool
  | [], _ => true
  | _ :: _, [] => false
  | p :: ps, c :: cs => p == c && charsStartWith ps cs

/-- After one middle character has been consumed, take characters up to and
including the first comma; `.` does not match a newline, so a newline
before the comma kills the match. -/
def scanComma : List Char → Option (List Char)
  | [] => none
  | c :: cs =>
    if c = '\n' then none
    else if c = ',' then some [c]
    else
      match scanComma cs with
      | some t => some (c :: t)
      | none => none

/-- Lazy match of `.+?,`: at least one non-newline character, then the
earliest comma. -/
def lazyMiddle : List Char → Option (List Char)
  | [] => none
  | c :: cs =>
    if c = '\n' then none
    else
      match scanComma cs with
      | some t => some (c :: t)
      | none => none

/-- The literal `JID_`. -/
def jidLit : List Char := ['J', 'I', 'D', '_']

/-- Model of `re.search("JID_.+?,", s)`: leftmost position where `JID_`
begins a completed match. -/
def jidSearchAux : List Char → Option (List Char)
  | [] => none
  | c :: cs =>
    if charsStartWith jidLit (c :: cs) then
      match lazyMiddle ((c :: cs).drop 4) with
      | some m => some (jidLit ++ m)
      | none => jidSearchAux cs
    else jidSearchAux cs

/-- Outcome of `create_bios_config_job`. -/
inductive CreateJobOutcome where
  | fatalStatus
  | unhandledException
  | created (jobId : List Char)
  deriving Repr, DecidableEq

/-- Model of `create_bios_config_job`: a non-200 POST status logs a
diagnostic and exits 1; on 200 the body is searched for `JID_.+?,` —
when `re.search` returns `None`, calling `.group()` on it raises an
unhandled `AttributeError`; otherwise `re.sub("[,']", "", match)` strips
commas and apostrophes from the job id. -/
def create_bios_config_job (statusCode : Nat) (body : List Char) : CreateJobOutcome :=
  if statusCode = 200 then
    match jidSearchAux body with
    | none => CreateJobOutcome.unhandledException
    | some m => CreateJobOutcome.created (m.filter (fun c => !(c == ',' || c == '\'')))
  else CreateJobOutcome.fatalStatus

/-- Trace of a `clear_job_queue` run: job ids deleted (after `strip("'")`),
whether the queue was re-queried, and the exit code if the process
terminated. -/
structure ClearTrace where
  deletes : List String
  requeried : Bool
  exitCode : Option Nat
  deriving Repr, DecidableEq

/-- Model of Python's `str.strip("'")` on a character list. -/
def stripQuotes (s : List Char) : List Char :=
  (((s.dropWhile (fun c => c == '\'')).reverse.dropWhile (fun c => c == '\'')).reverse)

/-- Model of `clear_job_queue`: an empty queue warns and returns; otherwise
one DELETE is issued per id (its response is never inspected, so the
result cannot depend on `deleteResponses`), the queue is re-queried, and a
non-empty re-query is fatal (`sys.exit(1)`). -/
def clear_job_queue (jobQueue : List String) (deleteResponses : List Nat)
    (requeryResult : List String) : ClearTrace :=
  if jobQueue.isEmpty then ⟨[], false, none⟩
  else
    let _ := deleteResponses
    let deletes := jobQueue.map (fun j => String.mk (stripQuotes j.data))
    if requeryResult.isEmpty then ⟨deletes, true, none⟩
    else ⟨deletes, true, some 1⟩

/-- How the shutdown polling loop of `reboot_server` ended. -/
inductive LoopOutcome where
  | reachedOff
  | fatalForceOff
  | ranOut
  deriving Repr, DecidableEq

/-- ForceOff posts issued by the shutdown loop and how it ended. -/
structure ShutdownResult where
  forceOffs : Nat
  outcome : LoopOutcome
  deriving Repr, DecidableEq

/-- The `while True` polling loop of `reboot_server`: each iteration reads
the power state; `"Off"` breaks; otherwise when `count == 10` a ForceOff is
posted (a non-204 status exits 1; a 204 sleeps and the loop continues
*without touching `count`*); otherwise `count` is incremented.  `reads`
supplies the successive power-state reads and `foStatuses` the status codes
of successive ForceOff posts; running out of either models an unboundedly
long run. -/
def shutdown_loop : List String → List Nat → Nat → ShutdownResult
  | [], _, _ => ⟨0, LoopOutcome.ranOut⟩
  | r :: rest, foSts, count =>
    if r = "Off" then ⟨0, LoopOutcome.reachedOff⟩
    else if count = 10 then
      match foSts with
      | [] => ⟨0, LoopOutcome.ranOut⟩
      | st :: foRest =>
        if st = 204 then
          let res := shutdown_loop rest foRest count
          ⟨res.forceOffs + 1, res.outcome⟩
        else ⟨1, LoopOutcome.fatalForceOff⟩
    else shutdown_loop rest foSts (count + 1)

/-- Final outcome of the `On` branch of `reboot_server`. -/
inductive RebootOutcome where
  | success
  | fatalGraceful
  | fatalForceOff
  | fatalPowerOn
  | ranOut
  deriving Repr, DecidableEq

/-- ForceOff posts, power-On posts, and outcome of a `reboot_server` run. -/
structure RebootResult where
  forceOffs : Nat
  powerOns : Nat
  outcome : RebootOutcome
  deriving Repr, DecidableEq

/-- The `PowerState == "On"` branch of `reboot_server`: a graceful reset is
posted (non-204 exits 1); then `shutdown_loop` polls with `count = 0`;
once `"Off"` is observed a single power-On is posted (non-204 exits 1). -/
def reboot_on_path (gracefulStatus : Nat) (reads : List String) (foStatuses : List Nat)
    (powerOnStatus : Nat) : RebootResult :=
  if gracefulStatus = 204 then
    let lr := shutdown_loop reads foStatuses 0
    match lr.outcome with
    | LoopOutcome.reachedOff =>
      if powerOnStatus = 204 then ⟨lr.forceOffs, 1, RebootOutcome.success⟩
      else ⟨lr.forceOffs, 1, RebootOutcome.fatalPowerOn⟩
    | LoopOutcome.fatalForceOff => ⟨lr.forceOffs, 0, RebootOutcome.fatalForceOff⟩
    | LoopOutcome.ranOut => ⟨lr.forceOffs, 0, RebootOutcome.ranOut⟩
  else ⟨0, 0, RebootOutcome.fatalGraceful⟩

/-- Index-ordering relation used to state sortedness of device lists. -/
def idxLe (a b : BootDevice) : Prop := a.index ≤ b.index

/-- Strict index ordering. -/
def idxLt (a b : BootDevice) : Prop := a.index < b.index

/-- C1 counterexample: a read sequence whose first 10 polls all read `On`
(then `Off` on the 11th) makes the orchestrator issue zero ForceOff
actions, not exactly one: the escalation fires only when an 11th poll
still reads `On`. -/
theorem C1_counterexample :
    ((List.replicate 10 "On" ++ ["Off"]).take 10 = List.replicate 10 "On")
    ∧ (reboot_on_path 204 (List.replicate 10 "On" ++ ["Off"]) [204] 204).forceOffs = 0 :=
  ⟨rfl, rfl⟩

/-- C1 amended: when the graceful reset returns 204, the first 11 polls all
read `On` and the 12th reads `Off` (ForceOff and power-On returning 204),
the orchestrator issues exactly one ForceOff and then exactly one power-On
and succeeds, whatever reads would follow. -/
theorem C1_escalation_amended (rest : List String) :
    reboot_on_path 204 (List.replicate 11 "On" ++ "Off" :: rest) [204] 204
      = ⟨1, 1, RebootOutcome.success⟩ := rfl

/-- C2: after the boot-order PATCH returns status 500, `change_boot_order`
only logs FAIL and returns, so `main` does not terminate and proceeds to
job creation — contradicting the fatal-transport-failure contract. -/
theorem C2_patch_failure_continues :
    Op.logPatchFail ∈ (main_flow ["em2"] [⟨"em1", 0⟩, ⟨"em2", 1⟩] 500).ops
    ∧ Op.createJob ∈ (main_flow ["em2"] [⟨"em1", 0⟩, ⟨"em2", 1⟩] 500).ops
    ∧ (main_flow ["em2"] [⟨"em1", 0⟩, ⟨"em2", 1⟩] 500).exitCode = none := by
  decide

/-- C3: `check_boot` reports profile "foreman" although the current order
(2 devices) matches neither profile in all its positions: the slice
`boot_devices[: len(interfaces)]` uses the length of the growing dict, so
only the first device is compared for "foreman". -/
theorem C3_classification_bug :
    check_boot ["eno1", "hdd1"] ["eno3", "eno4"] [⟨"eno1", 0⟩, ⟨"eno2", 1⟩]
      = CheckBootResult.matched "foreman"
    ∧ (sortByIndex [⟨"eno1", 0⟩, ⟨"eno2", 1⟩]).map BootDevice.name ≠ ["eno1", "hdd1"]
    ∧ (sortByIndex [⟨"eno1", 0⟩, ⟨"eno2", 1⟩]).map BootDevice.name ≠ ["eno3", "eno4"] := by
  decide

/-- C7: a 200 job-creation response whose serialized form contains no
`JID_...,` substring makes `create_bios_config_job` raise an unhandled
`AttributeError` (`re.search` returns `None` and `.group()` is called on
it) instead of terminating with a diagnostic. -/
theorem C7_missing_jid_unhandled :
    create_bios_config_job 200 ['n', 'o', ' ', 'i', 'd'] = CreateJobOutcome.unhandledException
    ∧ create_bios_config_job 200
        ['J', 'I', 'D', '_', '1', '2', ','] ≠ CreateJobOutcome.unhandledException := by
  decide

/-- Helper: with all-200 responses, if the first terminal message sits at
position `i < fuel`, the polling loop returns after exactly `i + 1` reads
and `i + 1` sleeps. -/
theorem get_job_status_loop_scheduled :
    ∀ (i : Nat) (msgs : List String) (fuel : Nat), i < fuel →
      msgs.get? i = some terminalMsg →
      (∀ j, j < i → msgs.get? j ≠ some terminalMsg) →
      get_job_status_loop (to200 msgs) fuel = ⟨i + 1, i + 1, JobPollOutcome.scheduled⟩ := by
  intro i
  induction i with
  | zero =>
    intro msgs fuel hif hterm _
    match msgs with
    | [] => simp at hterm
    | m :: rest =>
      have hm : m = terminalMsg := by simpa using hterm
      match fuel, hif with
      | f + 1, _ => simp [to200, get_job_status_loop, hm]
  | succ i ih =>
    intro msgs fuel hif hterm hbefore
    match msgs with
    | [] => simp at hterm
    | m :: rest =>
      have hm : m ≠ terminalMsg := fun h => hbefore 0 (Nat.succ_pos i) (by simp [h])
      match fuel, hif with
      | f + 1, hif =>
        have hrec := ih rest f (Nat.lt_of_succ_lt_succ hif) (by simpa using hterm)
          (fun j hj => by
            have := hbefore (j + 1) (Nat.succ_lt_succ hj)
            simpa using this)
        simp [to200, get_job_status_loop, hm] at hrec ⊢
        simp [hrec]

/-- Helper: with all-200 responses none of whose first `fuel` messages is
terminal, the polling loop exhausts its budget: `fuel` reads, `fuel`
sleeps, fatal outcome. -/
theorem get_job_status_loop_exhausted :
    ∀ (fuel : Nat) (msgs : List String),
      (∀ j, j < fuel → ∃ m, msgs.get? j = some m ∧ m ≠ terminalMsg) →
      get_job_status_loop (to200 msgs) fuel = ⟨fuel, fuel, JobPollOutcome.fatalExhausted⟩ := by
  intro fuel
  induction fuel with
  | zero => intro msgs _; cases msgs <;> rfl
  | succ f ih =>
    intro msgs h
    obtain ⟨m, hm, hmne⟩ := h 0 (Nat.succ_pos f)
    match msgs with
    | [] => simp at hm
    | m' :: rest =>
      have hm' : m' = m := by simpa using hm
      subst hm'
      have ht := ih rest (fun j hj => by
        obtain ⟨m2, h2, h2n⟩ := h (j + 1) (Nat.succ_lt_succ hj)
        exact ⟨m2, by simpa using h2, h2n⟩)
      simp [to200, get_job_status_loop, hmne] at ht ⊢
      simp [ht]

/-- C6: over all-200 responses, `get_job_status` makes exactly
`min k 10` reads where `k` is the 1-based position of the first terminal
message: success after exactly `k` reads when `k ≤ 10`, fatal after
exactly 10 reads when none of the first 10 messages is terminal. -/
theorem C6_job_polling (msgs : List String) :
    (∀ k, 1 ≤ k → k ≤ 10 →
       (∀ j, j < k - 1 → msgs.get? j ≠ some terminalMsg) →
       msgs.get? (k - 1) = some terminalMsg →
       (get_job_status (to200 msgs)).reads = k
         ∧ (get_job_status (to200 msgs)).outcome = JobPollOutcome.scheduled)
    ∧ ((∀ j, j < 10 → ∃ m, msgs.get? j = some m ∧ m ≠ terminalMsg) →
       (get_job_status (to200 msgs)).reads = 10
         ∧ (get_job_status (to200 msgs)).outcome = JobPollOutcome.fatalExhausted) := by
  constructor
  · intro k hk1 hk10 hbefore hterm
    have h := get_job_status_loop_scheduled (k - 1) msgs 10 (by omega) hterm hbefore
    unfold get_job_status
    rw [h]
    exact ⟨by simp; omega, rfl⟩
  · intro h
    have ht := get_job_status_loop_exhausted 10 msgs h
    unfold get_job_status
    rw [ht]
    exact ⟨rfl, rfl⟩

/-- C6 witness: messages `["Pending", "Pending", terminal]` succeed on the
third read. -/
theorem C6_job_polling_witness :
    (get_job_status (to200 ["Pending", "Pending", terminalMsg])).reads = 3
      ∧ (get_job_status (to200 ["Pending", "Pending", terminalMsg])).outcome
          = JobPollOutcome.scheduled :=
  (C6_job_polling ["Pending", "Pending", terminalMsg]).1 3 (by decide) (by decide)
    (by decide) (by decide)

/-- Helper: the number of sleeps equals the number of 200-status responses
among the reads actually made, for any response sequence. -/
theorem get_job_status_loop_delays :
    ∀ (fuel : Nat) (responses : List (Nat × String)),
      (get_job_status_loop responses fuel).delays
        = ((responses.take (get_job_status_loop responses fuel).reads).filter
            (fun r => r.1 == 200)).length := by
  intro fuel
  induction fuel with
  | zero => intro responses; cases responses <;> rfl
  | succ f ih =>
    intro responses
    match responses with
    | [] => rfl
    | (status, msg) :: rest =>
      by_cases hst : status = 200
      · subst hst
        by_cases hm : msg = terminalMsg
        · simp [get_job_status_loop, hm]
        · simp [get_job_status_loop, hm, ih rest]
      · simp [get_job_status_loop, hst]

/-- C9: the 10-unit sleep happens after every 200 read and before the
message check, so the sleep count equals the count of 200 statuses among
the reads made; in particular a first response that is already terminal
still incurs exactly one sleep. -/
theorem C9_delay_after_every_200 (responses : List (Nat × String)) :
    ((get_job_status responses).delays
       = ((responses.take (get_job_status responses).reads).filter
           (fun r => r.1 == 200)).length)
    ∧ (responses.head? = some (200, terminalMsg) →
       (get_job_status responses).reads = 1
         ∧ (get_job_status responses).delays = 1
         ∧ (get_job_status responses).outcome = JobPollOutcome.scheduled) := by
  constructor
  · exact get_job_status_loop_delays 10 responses
  · intro h
    match responses with
    | [] => simp at h
    | (st, m) :: rest =>
      simp only [List.head?_cons, Option.some.injEq, Prod.mk.injEq] at h
      obtain ⟨h1, h2⟩ := h
      subst h1
      subst h2
      exact ⟨rfl, rfl, rfl⟩

/-- C9 witness: a single, immediately terminal 200 response gives one read,
one sleep, success. -/
theorem C9_delay_witness :
    (get_job_status [(200, terminalMsg)]).reads = 1
      ∧ (get_job_status [(200, terminalMsg)]).delays = 1
      ∧ (get_job_status [(200, terminalMsg)]).outcome = JobPollOutcome.scheduled :=
  (C9_delay_after_every_200 [(200, terminalMsg)]).2 rfl

/-- C10: `clear_job_queue` never inspects DELETE responses (the result is
invariant under them); an empty queue issues no DELETE and no re-query and
returns; a non-empty queue issues one DELETE per id, re-queries, and exits
cleanly iff the re-query is empty (otherwise `sys.exit(1)`). -/
theorem C10_clear_job_queue (q requery : List String) (dr dr2 : List Nat) :
    (clear_job_queue q dr requery = clear_job_queue q dr2 requery)
    ∧ (q = [] → clear_job_queue q dr requery = ⟨[], false, none⟩)
    ∧ (q ≠ [] →
        (clear_job_queue q dr requery).deletes.length = q.length
          ∧ (clear_job_queue q dr requery).requeried = true
          ∧ ((clear_job_queue q dr requery).exitCode = none ↔ requery = [])) := by
  refine ⟨rfl, ?_, ?_⟩
  · intro h
    subst h
    rfl
  · intro hne
    have hq : q.isEmpty = false := by
      cases q with
      | nil => exact absurd rfl hne
      | cons a l => rfl
    by_cases hr : requery.isEmpty = true
    · have hre : requery = [] := List.isEmpty_iff.mp hr
      simp [clear_job_queue, hq, hr, hre]
    · have hrne : requery ≠ [] := fun h => hr (by simp [h])
      simp [clear_job_queue, hq, hr, hrne]

/-- C10 witness: a one-element queue whose re-query comes back empty issues
one DELETE, re-queries, and returns without exiting. -/
theorem C10_clear_witness :
    (clear_job_queue ["JID_1"] [200] []).deletes.length = 1
      ∧ (clear_job_queue ["JID_1"] [200] []).requeried = true
      ∧ ((clear_job_queue ["JID_1"] [200] []).exitCode = none ↔ ([] : List String) = []) :=
  (C10_clear_job_queue ["JID_1"] [] [200] [404]).2.2 (by decide)

/-- Helper: `get?` through `map`. -/
theorem getq_map_eq {α β : Type} (f : α → β) :
    ∀ (l : List α) (n : Nat), (l.map f).get? n = (l.get? n).map f := by
  intro l
  induction l with
  | nil => intro n; rfl
  | cons a t ih =>
    intro n
    cases n with
    | zero => rfl
    | succ n' => simpa using ih n'

/-- Helper: lists agreeing on `get?` everywhere are equal. -/
theorem getq_ext {α : Type} : ∀ (l₁ l₂ : List α), (∀ n, l₁.get? n = l₂.get? n) → l₁ = l₂ := by
  intro l₁
  induction l₁ with
  | nil =>
    intro l₂ h
    cases l₂ with
    | nil => rfl
    | cons b t => have := h 0; simp at this
  | cons a t ih =>
    intro l₂ h
    cases l₂ with
    | nil => have := h 0; simp at this
    | cons b t₂ =>
      have h0 : a = b := by have := h 0; simpa using this
      have ht : t = t₂ := ih t₂ (fun n => by have := h (n + 1); simpa using this)
      rw [h0, ht]

/-- Helper: in a duplicate-free list, `get?` is injective on positions. -/
theorem nodup_getq_inj {α : Type} :
    ∀ (l : List α), l.Nodup →
      ∀ (i j : Nat) (a : α), l.get? i = some a → l.get? j = some a → i = j := by
  intro l
  induction l with
  | nil => intro _ i j a h _; simp at h
  | cons x t ih =>
    intro hnd i j a hi hj
    cases i with
    | zero =>
      cases j with
      | zero => rfl
      | succ j' =>
        have hx : x = a := by simpa using hi
        subst hx
        exact absurd (List.get?_mem (by simpa using hj)) (List.nodup_cons.mp hnd).1
    | succ i' =>
      cases j with
      | zero =>
        have hx : x = a := by simpa using hj
        subst hx
        exact absurd (List.get?_mem (by simpa using hi)) (List.nodup_cons.mp hnd).1
      | succ j' =>
        have := ih (List.nodup_cons.mp hnd).2 i' j' a (by simpa using hi) (by simpa using hj)
        omega

/-- Helper: `Pairwise` from a positional characterization. -/
theorem pairwise_of_getq {α : Type} {R : α → α → Prop} :
    ∀ (l : List α),
      (∀ i j a b, i < j → l.get? i = some a → l.get? j = some b → R a b) → l.Pairwise R := by
  intro l
  induction l with
  | nil => intro _; exact List.Pairwise.nil
  | cons x t ih =>
    intro h
    refine List.pairwise_cons.mpr ⟨?_, ?_⟩
    · intro b hb
      obtain ⟨n, hn⟩ := List.get?_of_mem hb
      exact h 0 (n + 1) x b (Nat.succ_pos n) rfl (by simpa using hn)
    · exact ih (fun i j a b hij ha hb =>
        h (i + 1) (j + 1) a b (Nat.succ_lt_succ hij) (by simpa using ha) (by simpa using hb))

/-- Helper: `assignIndex` never changes the sequence of device names. -/
theorem assignIndex_map_name (nm : String) (i : Nat) :
    ∀ (devs : List BootDevice),
      ((assignIndex devs nm i).1).map BootDevice.name = devs.map BootDevice.name := by
  intro devs
  induction devs with
  | nil => rfl
  | cons d rest ih =>
    by_cases h : d.name = nm
    · by_cases h2 : d.index ≠ i
      · simp [assignIndex, h, h2]
      · simp [assignIndex, h, h2]
    · simp [assignIndex, h, ih]

/-- Helper: a device whose name differs from the assigned name is untouched. -/
theorem assignIndex_get_of_ne (nm : String) (i : Nat) :
    ∀ (devs : List BootDevice) (p : Nat) (dp : BootDevice),
      devs.get? p = some dp → dp.name ≠ nm →
      (assignIndex devs nm i).1.get? p = some dp := by
  intro devs
  induction devs with
  | nil => intro p dp h _; simp at h
  | cons d rest ih =>
    intro p dp hp hne
    cases p with
    | zero =>
      have hd : d = dp := by simpa using hp
      subst hd
      simp [assignIndex, hne]
    | succ p' =>
      have hp' : rest.get? p' = some dp := by simpa using hp
      by_cases h : d.name = nm
      · by_cases h2 : d.index ≠ i
        · simp only [assignIndex, if_pos h, if_pos h2]
          exact hp'
        · simp only [assignIndex, if_pos h, if_neg h2]
          exact hp'
      · simp only [assignIndex, if_neg h]
        exact ih p' dp hp' hne

/-- Helper: a device with an earlier same-named duplicate is untouched by
`assignIndex` (only the first occurrence can be assigned). -/
theorem assignIndex_get_of_dup (nm : String) (i : Nat) :
    ∀ (devs : List BootDevice) (p q : Nat) (dq dp : BootDevice),
      q < p → devs.get? q = some dq → devs.get? p = some dp → dq.name = dp.name →
      (assignIndex devs nm i).1.get? p = some dp := by
  intro devs
  induction devs with
  | nil => intro p q dq dp _ hq _ _; simp at hq
  | cons d rest ih =>
    intro p q dq dp hqp hq hp hname
    cases p with
    | zero => omega
    | succ p' =>
      have hp' : rest.get? p' = some dp := by simpa using hp
      by_cases h : d.name = nm
      · by_cases h2 : d.index ≠ i
        · simp only [assignIndex, if_pos h, if_pos h2]
          exact hp'
        · simp only [assignIndex, if_pos h, if_neg h2]
          exact hp'
      · simp only [assignIndex, if_neg h]
        cases q with
        | zero =>
          have hd : d = dq := by simpa using hq
          have hdp : dp.name ≠ nm := by
            rw [← hname, ← hd]
            exact h
          exact assignIndex_get_of_ne nm i rest p' dp hp' hdp
        | succ q' =>
          have hq' : rest.get? q' = some dq := by simpa using hq
          exact ih p' q' dq dp (by omega) hq' hp' hname

/-- Helper: one `assignIndex` pass changes at most one position. -/
theorem assignIndex_at_most_one (nm : String) (i : Nat) :
    ∀ (devs : List BootDevice), ∃ k, ∀ p, p ≠ k →
      (assignIndex devs nm i).1.get? p = devs.get? p := by
  intro devs
  induction devs with
  | nil => exact ⟨0, fun p _ => rfl⟩
  | cons d rest ih =>
    by_cases h : d.name = nm
    · refine ⟨0, fun p hp => ?_⟩
      cases p with
      | zero => exact absurd rfl hp
      | succ p' =>
        by_cases h2 : d.index ≠ i
        · simp only [assignIndex, if_pos h, if_pos h2]
          rfl
        · simp only [assignIndex, if_pos h, if_neg h2]
    · obtain ⟨k, hk⟩ := ih
      refine ⟨k + 1, fun p hp => ?_⟩
      cases p with
      | zero =>
        simp only [assignIndex, if_neg h]
        rfl
      | succ p' =>
        have hpk : p' ≠ k := fun hh => hp (by rw [hh])
        simp only [assignIndex, if_neg h]
        exact hk p' hpk

/-- Helper: the first device bearing the assigned name ends with the
assigned index. -/
theorem assignIndex_get_first (nm : String) (i : Nat) :
    ∀ (devs : List BootDevice) (p : Nat) (dp : BootDevice),
      devs.get? p = some dp → dp.name = nm →
      (∀ q, q < p → ∀ dq, devs.get? q = some dq → dq.name ≠ nm) →
      (assignIndex devs nm i).1.get? p = some ⟨nm, i⟩ := by
  intro devs
  induction devs with
  | nil => intro p dp hp _ _; simp at hp
  | cons d rest ih =>
    intro p dp hp hnm hfirst
    cases p with
    | zero =>
      have hd : d = dp := by simpa using hp
      subst hd
      by_cases h2 : d.index ≠ i
      · simp [assignIndex, hnm, h2]
      · have h3 : d.index = i := Decidable.not_not.mp h2
        cases d with
        | mk dn di =>
          simp only at hnm h3
          subst hnm
          subst h3
          simp [assignIndex]
    | succ p' =>
      have hp' : rest.get? p' = some dp := by simpa using hp
      have hd : d.name ≠ nm := hfirst 0 (Nat.succ_pos p') d rfl
      simp only [assignIndex, if_neg hd]
      exact ih p' dp hp' hnm
        (fun q hq dq hdq => hfirst (q + 1) (Nat.succ_lt_succ hq) dq (by simpa using hdq))

/-- Helper: the reconciliation fold never changes the sequence of names. -/
theorem computePatchAux_map_name :
    ∀ (ifs : List String) (devs : List BootDevice) (i : Nat) (c : Bool),
      ((computePatchAux ifs devs i c).1).map BootDevice.name = devs.map BootDevice.name := by
  intro ifs
  induction ifs with
  | nil => intro devs i c; rfl
  | cons nm rest ih =>
    intro devs i c
    simp only [computePatchAux]
    rw [ih, assignIndex_map_name]

/-- Helper: a device with an earlier same-named duplicate is untouched by
the whole reconciliation fold. -/
theorem computePatchAux_get_of_dup :
    ∀ (ifs : List String) (devs : List BootDevice) (i : Nat) (c : Bool)
      (p q : Nat) (dq dp : BootDevice),
      q < p → devs.get? q = some dq → devs.get? p = some dp → dq.name = dp.name →
      (computePatchAux ifs devs i c).1.get? p = some dp := by
  intro ifs
  induction ifs with
  | nil => intro devs i c p q dq dp _ _ hp _; exact hp
  | cons nm rest ih =>
    intro devs i c p q dq dp hqp hq hp hname
    have hp2 : (assignIndex devs nm i).1.get? p = some dp :=
      assignIndex_get_of_dup nm i devs p q dq dp hqp hq hp hname
    have hq2 : ∃ dq2, (assignIndex devs nm i).1.get? q = some dq2 ∧ dq2.name = dq.name := by
      have h1 : ((assignIndex devs nm i).1.map BootDevice.name).get? q = some dq.name := by
        rw [assignIndex_map_name, getq_map_eq, hq]
        rfl
      rw [getq_map_eq] at h1
      match hh : (assignIndex devs nm i).1.get? q with
      | none => rw [hh] at h1; simp at h1
      | some dq2 =>
        rw [hh] at h1
        exact ⟨dq2, rfl, by simpa using h1⟩
    obtain ⟨dq2, hq2, hq2n⟩ := hq2
    simp only [computePatchAux]
    exact ih _ _ _ p q dq2 dp hqp hq2 hp2 (by rw [hq2n, hname])

/-- Helper: a device whose name appears nowhere in the desired list keeps
its record (name and index) through the whole reconciliation fold. -/
theorem computePatchAux_get_not_mem :
    ∀ (ifs : List String) (devs : List BootDevice) (i : Nat) (c : Bool)
      (p : Nat) (dp : BootDevice),
      devs.get? p = some dp → dp.name ∉ ifs →
      (computePatchAux ifs devs i c).1.get? p = some dp := by
  intro ifs
  induction ifs with
  | nil => intro devs i c p dp hp _; exact hp
  | cons nm rest ih =>
    intro devs i c p dp hp hnm
    have h1 : dp.name ≠ nm := fun h => hnm (by rw [h]; exact List.mem_cons_self _ _)
    have h2 : dp.name ∉ rest := fun h => hnm (List.mem_cons_of_mem _ h)
    simp only [computePatchAux]
    exact ih _ _ _ p dp (assignIndex_get_of_ne nm i devs p dp hp h1) h2

/-- C8: the reconciliation assigns a desired position's index only to the
first device in list order bearing the desired name — a device with an
earlier same-named duplicate keeps its record unchanged — and each single
desired-position pass updates at most one device. -/
theorem C8_first_match_only (ifs : List String) (devs : List BootDevice) :
    (∀ p q dq dp, q < p → devs.get? q = some dq → devs.get? p = some dp →
       dq.name = dp.name → (computePatch ifs devs).1.get? p = some dp)
    ∧ (∀ nm i, ∃ k, ∀ p, p ≠ k → (assignIndex devs nm i).1.get? p = devs.get? p) := by
  constructor
  · intro p q dq dp hqp hq hp hname
    exact computePatchAux_get_of_dup ifs devs 0 false p q dq dp hqp hq hp hname
  · intro nm i
    exact assignIndex_at_most_one nm i devs

/-- C8 witness: with devices `[A/0, B/1, A/2]` and desired `["A", "B"]`,
the later duplicate `A/2` is untouched. -/
theorem C8_witness :
    (computePatch ["A", "B"] [⟨"A", 0⟩, ⟨"B", 1⟩, ⟨"A", 2⟩]).1.get? 2 = some ⟨"A", 2⟩ :=
  (C8_first_match_only ["A", "B"] [⟨"A", 0⟩, ⟨"B", 1⟩, ⟨"A", 2⟩]).1 2 0 ⟨"A", 0⟩ ⟨"A", 2⟩
    (by decide) rfl rfl rfl

/-- Helper: when the first device bearing the assigned name already holds
the assigned index, `assignIndex` changes nothing and reports no change. -/
theorem assignIndex_noop :
    ∀ (devs : List BootDevice) (nm : String) (i : Nat),
      (∃ k d, devs.get? k = some d ∧ d.name = nm ∧ d.index = i ∧
        ∀ q, q < k → ∀ dq, devs.get? q = some dq → dq.name ≠ nm) →
      assignIndex devs nm i = (devs, false) := by
  intro devs
  induction devs with
  | nil =>
    intro nm i h
    obtain ⟨k, d, hk, -⟩ := h
    simp at hk
  | cons d0 rest ih =>
    intro nm i h
    obtain ⟨k, d, hk, hdn, hdi, hfirst⟩ := h
    cases k with
    | zero =>
      have hd : d0 = d := by simpa using hk
      subst hd
      have h2 : ¬ d0.index ≠ i := fun hh => hh hdi
      simp only [assignIndex, if_pos hdn, if_neg h2]
    | succ k' =>
      have hne : d0.name ≠ nm := hfirst 0 (Nat.succ_pos k') d0 rfl
      have hrec := ih nm i ⟨k', d, by simpa using hk, hdn, hdi,
        fun q hq dq hdq => hfirst (q + 1) (Nat.succ_lt_succ hq) dq (by simpa using hdq)⟩
      simp only [assignIndex, if_neg hne, hrec]

/-- Helper: when every desired name's first-matching device already holds
the desired index, the whole fold is a no-op with `change = false`. -/
theorem computePatchAux_noop :
    ∀ (ifs : List String) (devs : List BootDevice) (i0 : Nat),
      (∀ j nm, ifs.get? j = some nm →
        ∃ k d, devs.get? k = some d ∧ d.name = nm ∧ d.index = i0 + j ∧
          ∀ q, q < k → ∀ dq, devs.get? q = some dq → dq.name ≠ nm) →
      computePatchAux ifs devs i0 false = (devs, false) := by
  intro ifs
  induction ifs with
  | nil => intro devs i0 _; rfl
  | cons nm rest ih =>
    intro devs i0 h
    have hnoop : assignIndex devs nm i0 = (devs, false) := by
      apply assignIndex_noop
      obtain ⟨k, d, hk, hdn, hdi, hfirst⟩ := h 0 nm rfl
      exact ⟨k, d, hk, hdn, by rw [hdi]; omega, hfirst⟩
    have hrest := ih devs (i0 + 1) (fun j nm2 hj => by
      obtain ⟨k, d, hk, hdn, hdi, hfirst⟩ := h (j + 1) nm2 (by simpa using hj)
      refine ⟨k, d, hk, hdn, by rw [hdi]; omega, hfirst⟩)
    simp only [computePatchAux, hnoop]
    exact hrest

/-- C5 counterexample: devices `[em1/1, em2/0]` have names equal to the
desired ordering `["em1", "em2"]` position for position, yet the
reconciliation mutates both indices and issues a PATCH instead of taking
the no-op exit: the no-op test compares indices, not list positions. -/
theorem C5_counterexample :
    ([⟨"em1", 1⟩, ⟨"em2", 0⟩] : List BootDevice).map BootDevice.name = ["em1", "em2"]
    ∧ (main_flow ["em1", "em2"] [⟨"em1", 1⟩, ⟨"em2", 0⟩] 200).exitCode = none
    ∧ Op.patchBootOrder [⟨"em1", 0⟩, ⟨"em2", 1⟩]
        ∈ (main_flow ["em1", "em2"] [⟨"em1", 1⟩, ⟨"em2", 0⟩] 200).ops := by
  decide

/-- C5 amended: when the desired ordering equals the current device names
position for position, each device's stored index equals its list position,
and the names are duplicate-free, the reconciliation is a no-op: no device
is mutated, no PATCH is issued, and the process exits with code 0 after
the no-op warning. -/
theorem C5_noop_amended (ifs : List String) (devs : List BootDevice) (patchStatus : Nat)
    (hmap : devs.map BootDevice.name = ifs)
    (hidx : devs.map BootDevice.index = List.range devs.length)
    (hnd : ifs.Nodup) :
    computePatch ifs devs = (devs, false)
    ∧ main_flow ifs devs patchStatus = ⟨[Op.logNoopWarning], some 0⟩ := by
  have hnames : (devs.map BootDevice.name).Nodup := by rw [hmap]; exact hnd
  have hcp : computePatch ifs devs = (devs, false) := by
    apply computePatchAux_noop
    intro j nm hj
    have hjn : (devs.map BootDevice.name).get? j = some nm := by rw [hmap]; exact hj
    rw [getq_map_eq] at hjn
    match hd : devs.get? j with
    | none => rw [hd] at hjn; simp at hjn
    | some d =>
      rw [hd] at hjn
      have hdn : d.name = nm := by simpa using hjn
      have hjlen : j < devs.length := by
        by_contra hge
        rw [List.get?_eq_none.mpr (by omega)] at hd
        simp at hd
      have hdi : d.index = j := by
        have h1 : (devs.map BootDevice.index).get? j = some d.index := by
          rw [getq_map_eq, hd]
          rfl
        rw [hidx, List.get?_range hjlen] at h1
        simpa using h1.symm
      refine ⟨j, d, hd, hdn, by omega, ?_⟩
      intro q hq dq hdq hcontra
      have h1 : (devs.map BootDevice.name).get? q = some nm := by
        rw [getq_map_eq, hdq]
        simpa using hcontra
      have h2 : (devs.map BootDevice.name).get? j = some nm := by
        rw [getq_map_eq, hd]
        simpa using hdn
      have := nodup_getq_inj _ hnames q j nm h1 h2
      omega
  refine ⟨hcp, ?_⟩
  simp [main_flow, change_boot_order_trace, hcp]

/-- C5 witness: a two-device list already in the desired order takes the
no-op exit with code 0. -/
theorem C5_noop_witness :
    computePatch ["em1", "em2"] [⟨"em1", 0⟩, ⟨"em2", 1⟩] = ([⟨"em1", 0⟩, ⟨"em2", 1⟩], false)
    ∧ main_flow ["em1", "em2"] [⟨"em1", 0⟩, ⟨"em2", 1⟩] 200
        = ⟨[Op.logNoopWarning], some 0⟩ :=
  C5_noop_amended ["em1", "em2"] [⟨"em1", 0⟩, ⟨"em2", 1⟩] 200 (by decide) (by decide)
    (by decide)

/-- Helper: inserting permutes with consing. -/
theorem insertByIndex_perm (d : BootDevice) :
    ∀ (l : List BootDevice), (insertByIndex d l).Perm (d :: l) := by
  intro l
  induction l with
  | nil => exact List.Perm.refl _
  | cons e rest ih =>
    by_cases h : e.index < d.index
    · simp only [insertByIndex, if_pos h]
      exact (ih.cons e).trans (List.Perm.swap d e rest)
    · simp only [insertByIndex, if_neg h]
      exact List.Perm.refl _

/-- Helper: the index sort permutes its input. -/
theorem sortByIndex_perm : ∀ (l : List BootDevice), (sortByIndex l).Perm l := by
  intro l
  induction l with
  | nil => exact List.Perm.refl _
  | cons d rest ih => exact (insertByIndex_perm d (sortByIndex rest)).trans (ih.cons d)

/-- Helper: membership after insertion. -/
theorem insertByIndex_mem (d : BootDevice) (l : List BootDevice) (x : BootDevice)
    (hx : x ∈ insertByIndex d l) : x = d ∨ x ∈ l := by
  have := (insertByIndex_perm d l).subset hx
  simpa using this

/-- Helper: insertion preserves sortedness by index. -/
theorem insertByIndex_sorted (d : BootDevice) :
    ∀ (l : List BootDevice), l.Pairwise idxLe → (insertByIndex d l).Pairwise idxLe := by
  intro l
  induction l with
  | nil => intro _; exact List.pairwise_singleton _ _
  | cons e rest ih =>
    intro hp
    obtain ⟨he, hrest⟩ := List.pairwise_cons.mp hp
    by_cases h : e.index < d.index
    · simp only [insertByIndex, if_pos h]
      refine List.pairwise_cons.mpr ⟨?_, ih hrest⟩
      intro x hx
      rcases insertByIndex_mem d rest x hx with hxd | hxr
      · rw [hxd]
        exact Nat.le_of_lt h
      · exact he x hxr
    · simp only [insertByIndex, if_neg h]
      refine List.pairwise_cons.mpr ⟨?_, hp⟩
      intro x hx
      rcases List.mem_cons.mp hx with hxe | hxr
      · rw [hxe]
        exact Nat.le_of_not_lt h
      · exact Nat.le_trans (Nat.le_of_not_lt h) (he x hxr)

/-- Helper: the index sort sorts. -/
theorem sortByIndex_sorted : ∀ (l : List BootDevice), (sortByIndex l).Pairwise idxLe := by
  intro l
  induction l with
  | nil => exact List.Pairwise.nil
  | cons d rest ih => exact insertByIndex_sorted d (sortByIndex rest) ih

/-- Helper: a weakly sorted permutation of a strictly sorted list equals it. -/
theorem eq_of_perm_sorted_strict :
    ∀ (l t : List BootDevice), l.Perm t → l.Pairwise idxLe → t.Pairwise idxLt → l = t := by
  intro l
  induction l with
  | nil =>
    intro t h _ _
    exact (h.symm.eq_nil).symm
  | cons a l' ih =>
    intro t h hle hlt
    cases t with
    | nil => exact absurd h.eq_nil (by simp)
    | cons b t' =>
      have hab : a = b := by
        have ha : a ∈ b :: t' := h.subset (List.mem_cons_self a l')
        rcases List.mem_cons.mp ha with h1 | h1
        · exact h1
        · have hba : b.index < a.index := (List.pairwise_cons.mp hlt).1 a h1
          have hb : b ∈ a :: l' := h.symm.subset (List.mem_cons_self b t')
          rcases List.mem_cons.mp hb with h2 | h2
          · exact h2.symm
          · have hab2 : a.index ≤ b.index := (List.pairwise_cons.mp hle).1 b h2
            exact absurd hba (Nat.not_lt.mpr hab2)
      subst hab
      rw [ih t' h.cons_inv (List.pairwise_cons.mp hle).2 (List.pairwise_cons.mp hlt).2]

/-- Helper: `posOf` finds a member. -/
theorem posOf_getq : ∀ (l : List String) (nm : String), nm ∈ l → l.get? (posOf nm l) = some nm := by
  intro l
  induction l with
  | nil => intro nm h; simp at h
  | cons s rest ih =>
    intro nm h
    by_cases hs : s = nm
    · simp [posOf, hs]
    · have hmem : nm ∈ rest := by
        rcases List.mem_cons.mp h with h1 | h1
        · exact absurd h1.symm hs
        · exact h1
      have hih := ih nm hmem
      simp only [posOf, if_neg hs]
      exact hih

/-- Helper: in a duplicate-free list `posOf` inverts `get?`. -/
theorem posOf_eq_of_getq :
    ∀ (l : List String), l.Nodup → ∀ (j : Nat) (nm : String),
      l.get? j = some nm → posOf nm l = j := by
  intro l
  induction l with
  | nil => intro _ j nm h; simp at h
  | cons s rest ih =>
    intro hnd j nm hj
    cases j with
    | zero =>
      have hs : s = nm := by simpa using hj
      simp [posOf, hs]
    | succ j' =>
      have hj' : rest.get? j' = some nm := by simpa using hj
      have hs : s ≠ nm := by
        intro hcontra
        subst hcontra
        exact (List.nodup_cons.mp hnd).1 (List.get?_mem hj')
      simp [posOf, hs, ih (List.nodup_cons.mp hnd).2 j' nm hj']

/-- Helper: under a duplicate-free desired list, the first device bearing
the `j`-th desired name ends the fold with index `i0 + j`. -/
theorem computePatchAux_get_target :
    ∀ (ifs : List String) (devs : List BootDevice) (i0 : Nat) (c : Bool)
      (p j : Nat) (dp : BootDevice),
      ifs.Nodup →
      devs.get? p = some dp →
      (∀ q, q < p → ∀ dq, devs.get? q = some dq → dq.name ≠ dp.name) →
      ifs.get? j = some dp.name →
      (computePatchAux ifs devs i0 c).1.get? p = some ⟨dp.name, i0 + j⟩ := by
  intro ifs
  induction ifs with
  | nil => intro devs i0 c p j dp _ _ _ hj; simp at hj
  | cons nm rest ih =>
    intro devs i0 c p j dp hnd hp hfirst hj
    cases j with
    | zero =>
      have hnm : nm = dp.name := by simpa using hj
      subst hnm
      have hset := assignIndex_get_first dp.name i0 devs p dp hp rfl hfirst
      have hrest : dp.name ∉ rest := (List.nodup_cons.mp hnd).1
      simp only [computePatchAux]
      rw [computePatchAux_get_not_mem rest (assignIndex devs dp.name i0).1 (i0 + 1)
        (c || (assignIndex devs dp.name i0).2) p ⟨dp.name, i0⟩ hset (by simpa using hrest)]
      simp

    | succ j' =>
      have hj' : rest.get? j' = some dp.name := by simpa using hj
      have hmem : dp.name ∈ rest := List.get?_mem hj'
      have hne : dp.name ≠ nm := fun h => (List.nodup_cons.mp hnd).1 (h ▸ hmem)
      have hp2 := assignIndex_get_of_ne nm i0 devs p dp hp hne
      have hfirst2 : ∀ q, q < p → ∀ dq,
          (assignIndex devs nm i0).1.get? q = some dq → dq.name ≠ dp.name := by
        intro q hq dq hdq hcontra
        have h1 : ((assignIndex devs nm i0).1.map BootDevice.name).get? q = some dq.name := by
          rw [getq_map_eq, hdq]
          rfl
        rw [assignIndex_map_name, getq_map_eq] at h1
        match hh : devs.get? q with
        | none => rw [hh] at h1; simp at h1
        | some dq' =>
          rw [hh] at h1
          have hqn : dq'.name = dq.name := by simpa using h1
          exact hfirst q hq dq' hh (hqn.trans hcontra)
      simp only [computePatchAux]
      have hih := ih (assignIndex devs nm i0).1 (i0 + 1) (c || (assignIndex devs nm i0).2)
        p j' dp (List.nodup_cons.mp hnd).2 hp2 hfirst2 hj'
      rw [hih]
      have harith : i0 + 1 + j' = i0 + (j' + 1) := by omega
      rw [harith]

/-- C4 counterexample: devices `[A/0, B/1]` with desired `["B"]` (which
differs from the current order in position 0): the patch gives B index 0
while the unmatched A keeps index 0, and the stable index sort leaves A
first, so the patched sequence sorted by index does not reproduce the
desired ordering over the overlapping length. -/
theorem C4_counterexample :
    (computePatch ["B"] [⟨"A", 0⟩, ⟨"B", 1⟩]).2 = true
    ∧ ((sortByIndex (computePatch ["B"] [⟨"A", 0⟩, ⟨"B", 1⟩]).1).map BootDevice.name).take 1
        ≠ ["B"] := by
  decide

/-- C4 amended: when the desired ordering is a duplicate-free permutation
of the current device names, the patched device sequence sorted by index
reproduces the desired ordering exactly; and unconditionally, every device
whose name does not appear in the desired ordering keeps its original
record (name and index) at its original position. -/
theorem C4_patch_amended (ifs : List String) (devs : List BootDevice) :
    (ifs.Nodup → (devs.map BootDevice.name).Perm ifs →
       (sortByIndex (computePatch ifs devs).1).map BootDevice.name = ifs)
    ∧ (∀ p dp, devs.get? p = some dp → dp.name ∉ ifs →
       (computePatch ifs devs).1.get? p = some dp) := by
  constructor
  · intro hnd hperm
    have hnames : (devs.map BootDevice.name).Nodup := hperm.nodup_iff.mpr hnd
    have hF : ∀ n, (computePatch ifs devs).1.get? n
        = (devs.map (fun d => (⟨d.name, posOf d.name ifs⟩ : BootDevice))).get? n := by
      intro n
      rw [getq_map_eq]
      match hn : devs.get? n with
      | none =>
        have h1 : devs.length ≤ n := List.get?_eq_none.mp hn
        have h2 : (computePatch ifs devs).1.length = devs.length := by
          have hlen := congrArg List.length (computePatchAux_map_name ifs devs 0 false)
          simpa using hlen
        have h3 : (computePatch ifs devs).1.get? n = none :=
          List.get?_eq_none.mpr (by rw [h2]; exact h1)
        rw [h3]
        rfl
      | some dp =>
        have hfirst : ∀ q, q < n → ∀ dq, devs.get? q = some dq → dq.name ≠ dp.name := by
          intro q hq dq hdq hcontra
          have h1 : (devs.map BootDevice.name).get? q = some dp.name := by
            rw [getq_map_eq, hdq]
            simpa using hcontra
          have h2 : (devs.map BootDevice.name).get? n = some dp.name := by
            rw [getq_map_eq, hn]
            rfl
          have := nodup_getq_inj _ hnames q n dp.name h1 h2
          omega
        have hmem : dp.name ∈ ifs :=
          hperm.subset (List.mem_map.mpr ⟨dp, List.get?_mem hn, rfl⟩)
        have hj := posOf_getq ifs dp.name hmem
        have htgt : (computePatch ifs devs).1.get? n
            = some ⟨dp.name, 0 + posOf dp.name ifs⟩ :=
          computePatchAux_get_target ifs devs 0 false n (posOf dp.name ifs) dp
            hnd hn hfirst hj
        rw [htgt]
        simp
    have hFeq : (computePatch ifs devs).1
        = devs.map (fun d => (⟨d.name, posOf d.name ifs⟩ : BootDevice)) := getq_ext _ _ hF
    have hFT : (computePatch ifs devs).1.Perm
        (ifs.map (fun nm => (⟨nm, posOf nm ifs⟩ : BootDevice))) := by
      rw [hFeq]
      have hcomp : devs.map (fun d => (⟨d.name, posOf d.name ifs⟩ : BootDevice))
          = (devs.map BootDevice.name).map (fun nm => (⟨nm, posOf nm ifs⟩ : BootDevice)) := by
        rw [List.map_map]
        rfl
      rw [hcomp]
      exact hperm.map _
    have hTlt : (ifs.map (fun nm => (⟨nm, posOf nm ifs⟩ : BootDevice))).Pairwise idxLt := by
      apply pairwise_of_getq
      intro i j a b hij ha hb
      rw [getq_map_eq] at ha hb
      match hi : ifs.get? i with
      | none => rw [hi] at ha; simp at ha
      | some nmi =>
        match hj2 : ifs.get? j with
        | none => rw [hj2] at hb; simp at hb
        | some nmj =>
          rw [hi] at ha
          rw [hj2] at hb
          have ha' : a = ⟨nmi, posOf nmi ifs⟩ := by
            have := ha.symm
            simpa using this
          have hb' : b = ⟨nmj, posOf nmj ifs⟩ := by
            have := hb.symm
            simpa using this
          have hpi := posOf_eq_of_getq ifs hnd i nmi hi
          have hpj := posOf_eq_of_getq ifs hnd j nmj hj2
          rw [ha', hb']
          show posOf nmi ifs < posOf nmj ifs
          omega
    have hfinal : sortByIndex (computePatch ifs devs).1
        = ifs.map (fun nm => (⟨nm, posOf nm ifs⟩ : BootDevice)) :=
      eq_of_perm_sorted_strict _ _ ((sortByIndex_perm _).trans hFT)
        (sortByIndex_sorted _) hTlt
    rw [hfinal]
    have hid : ∀ (l : List String),
        (l.map (fun nm => (⟨nm, posOf nm ifs⟩ : BootDevice))).map BootDevice.name = l := by
      intro l
      induction l with
      | nil => rfl
      | cons x t iht => simp [iht]
    exact hid ifs
  · intro p dp hp hnm
    exact computePatchAux_get_not_mem ifs devs 0 false p dp hp hnm

/-- C4 witness: desired `["B", "A"]` over devices `[A/0, B/1]` (a
permutation) yields a patch whose index sort reads `B, A`. -/
theorem C4_patch_witness :
    (sortByIndex (computePatch ["B", "A"] [⟨"A", 0⟩, ⟨"B", 1⟩]).1).map BootDevice.name
      = ["B", "A"] :=
  (C4_patch_amended ["B", "A"] [⟨"A", 0⟩, ⟨"B", 1⟩]).1 (by decide) (by decide)
